import Mathlib

/-!
Verification of the meshlet/LOD renderer core (vk-ext-mesh-shader-example).

The definitions below are a shallow embedding of the Rust sources:
  * `src/render/mesh.rs`    — meshlet packing (`Mesh::new`), draw dispatch
                              (`MeshCollection::draw_mesh`), constants buffer
  * `src/render/passes/geometry.rs` — per-instance LOD selection
  * `src/render/buffer.rs`  — buffer upload / ownership
  * `src/render/frame.rs`, `src/render/renderer.rs` — frame ring
Machine integers are modelled as `Nat` (no value in the program approaches
2^32 overflow on the modelled paths); `f32` quantities entering integer
truncation are modelled as `ℚ` with `Int.floor`.
-/

/-! ## Meshlet data model (mesh.rs lines 37-57) -/

/-- Meshlet record as stored in the per-level meshlet array
(mesh.rs `Meshlet { data_offset, vertex_count, triangle_count }`). -/
structure Meshlet where
  data_offset : ℕ
  vertex_count : ℕ
  triangle_count : ℕ
deriving DecidableEq, Repr

/-- View of one cluster as returned by the meshopt meshlet build:
`vertices` are the local→global vertex indices (u32 each), `triangles`
is the flat list of local vertex indices, one byte (u8, value < 256)
per index and three indices per triangle. -/
structure MeshoptMeshlet where
  vertices : List ℕ
  triangles : List ℕ
deriving DecidableEq, Repr

/-- Number of packed u32 words for a meshlet's triangle section:
`(meshlet.triangles.len() + 3) >> 2` (mesh.rs line 152). -/
def numPackedIndices (triangles : List ℕ) : ℕ :=
  (triangles.length + 3) >>> 2

/-- One packed triangle word (mesh.rs lines 155-158):
`(t[4j] << 24) | (t[4j+1] << 16) | (t[4j+2] << 8) | t[4j+3]`,
with lanes past the end of the index list zero-filled
(`.get(..).copied().unwrap_or_default()`). -/
def packWord (triangles : List ℕ) (j : ℕ) : ℕ :=
  (triangles.getD (j <<< 2) 0) <<< 24
    ||| (triangles.getD (j <<< 2 + 1) 0) <<< 16
    ||| (triangles.getD (j <<< 2 + 2) 0) <<< 8
    ||| triangles.getD (j <<< 2 + 3) 0

/-- The packed triangle words of one meshlet, in write order
(mesh.rs lines 152-160). -/
def packedWords (triangles : List ℕ) : List ℕ :=
  (List.range (numPackedIndices triangles)).map (packWord triangles)

/-- Allocation size of the level's meshlet-data blob (mesh.rs line 137):
`Σ meshlet.vertices.len() + ((meshlet.triangles.len() * 3 + 3) >> 2)`. -/
def numMeshletData (ms : List MeshoptMeshlet) : ℕ :=
  (ms.map (fun m => m.vertices.length + ((m.triangles.length * 3 + 3) >>> 2))).sum

/-- Sequential element writes `blob[i] = w; i += 1` (mesh.rs lines 147-160). -/
def writeSeq : List ℕ → ℕ → List ℕ → List ℕ
  | blob, _, [] => blob
  | blob, i, w :: ws => writeSeq (blob.set i w) (i + 1) ws

/-- One iteration of the meshlet packing fold (mesh.rs lines 144-163):
record `data_offset`, write the vertex indices, write the packed triangle
words, emit the `Meshlet` record with `triangle_count = triangles.len() / 3`. -/
def buildStep (st : List ℕ × ℕ × List Meshlet) (m : MeshoptMeshlet) :
    List ℕ × ℕ × List Meshlet :=
  let data_offset := st.2.1
  let blob1 := writeSeq st.1 data_offset m.vertices
  let idx1 := data_offset + m.vertices.length
  let blob2 := writeSeq blob1 idx1 (packedWords m.triangles)
  let idx2 := idx1 + (packedWords m.triangles).length
  (blob2, idx2,
    st.2.2 ++ [⟨data_offset, m.vertices.length, m.triangles.length / 3⟩])

/-- The per-level packing loop of `Mesh::new` (mesh.rs lines 137-164):
zero-fill a blob of `numMeshletData` words, then fold `buildStep` over the
meshlets; returns (meshlet_data blob, final write index, meshlet records). -/
def buildLevel (ms : List MeshoptMeshlet) : List ℕ × ℕ × List Meshlet :=
  ms.foldl buildStep (List.replicate (numMeshletData ms) 0, 0, [])

/-! ## Unpacking, from the spec's round-trip description (spec §8):
extract the four byte lanes of each word, take the true index count. -/

/-- Byte lanes of one packed word, most significant first. -/
def unpackWord (w : ℕ) : List ℕ :=
  [(w >>> 24) &&& 255, (w >>> 16) &&& 255, (w >>> 8) &&& 255, w &&& 255]

/-- Unpack a meshlet's triangle bytes from the level blob: read
`(3*triangle_count + 3) >> 2` words starting at `data_offset + vertex_count`,
split each into byte lanes, keep the first `3*triangle_count` indices. -/
def unpackTriangles (blob : List ℕ) (data_offset vertex_count triangle_count : ℕ) :
    List ℕ :=
  (((blob.drop (data_offset + vertex_count)).take ((3 * triangle_count + 3) >>> 2)).map
      unpackWord).flatten.take (3 * triangle_count)

/-- Contiguous data written for one meshlet: its vertex indices followed by
its packed triangle words (mesh.rs lines 147-160 write exactly these, in
this order, at consecutive indices). -/
def sectionOf (m : MeshoptMeshlet) : List ℕ :=
  m.vertices ++ packedWords m.triangles

/-- Meshlet records with data offsets as laid down by the packing fold:
each meshlet starts where the previous one's section ended. -/
def mkRecords (base : ℕ) : List MeshoptMeshlet → List Meshlet
  | [] => []
  | m :: rest =>
    ⟨base, m.vertices.length, m.triangles.length / 3⟩ ::
      mkRecords (base + (sectionOf m).length) rest

/-- Concrete meshopt cluster: 4 unique vertices, 2 triangles (6 local
index bytes) — the quad of the builtin plane mesh. -/
def quadMeshlet : MeshoptMeshlet :=
  { vertices := [0, 1, 3, 2], triangles := [0, 1, 2, 2, 1, 3] }

/-- Concrete meshopt cluster with 5 triangles (15 local index bytes),
exercising a partial trailing packed word. -/
def fiveTriMeshlet : MeshoptMeshlet :=
  { vertices := [4, 9, 6, 7, 5, 8, 3],
    triangles := [0, 1, 2, 1, 2, 3, 2, 3, 4, 3, 4, 5, 4, 5, 6] }

/-! ## Draw dispatch and level clamping (mesh.rs `draw_mesh`, lines 352-384) -/

/-- Task group count of the clustered draw (mesh.rs line 380):
`(num_meshlets * workgroup_size + workgroup_size - 1) / workgroup_size`. -/
def numTaskGroups (num_meshlets workgroup_size : ℕ) : ℕ :=
  (num_meshlets * workgroup_size + workgroup_size - 1) / workgroup_size

/-- Rust's `x.clamp(lo, hi)` on unsigned integers (for `lo ≤ hi`). -/
def rustClamp (x lo hi : ℕ) : ℕ :=
  max lo (min x hi)

/-- Level index actually used by `draw_mesh` (mesh.rs line 353):
`level_idx.clamp(0, levels.len() - 1)`. -/
def clampLevelIdx (level_idx num_levels : ℕ) : ℕ :=
  rustClamp level_idx 0 (num_levels - 1)

/-! ## Per-instance LOD selection (geometry.rs lines 286-292) -/

/-- Level index requested by `render_meshes` (geometry.rs lines 286-292):
`((distance * 0.08) as u32).min(max_level_idx)` where
`max_level_idx = levels.len()`. The f32 → u32 cast truncates toward zero
and saturates below at 0, which on `ℚ` is `Int.toNat ∘ Int.floor` for
non-negative input. -/
def selectLevelIdx (dist : ℚ) (num_levels : ℕ) : ℕ :=
  min (Int.toNat ⌊dist * (0.08 : ℚ)⌋) num_levels

/-- LOD level a grid instance is drawn with: the `render_meshes` selection
followed by `draw_mesh`'s clamp. -/
def drawnLevel (dist : ℚ) (num_levels : ℕ) : ℕ :=
  clampLevelIdx (selectLevelIdx dist num_levels) num_levels

/-! ## Constants buffer (mesh.rs lines 238 and 309-325) -/

/-- Byte size of a glam `Mat4` (16 f32 entries). -/
def mat4Size : ℕ := 64

/-- Byte size of a glam `Vec3` (3 f32 entries). -/
def vec3Size : ℕ := 12

/-- Byte size of a glam `Vec4` (4 f32 entries). -/
def vec4Size : ℕ := 16

/-- Byte size of an `f32`. -/
def f32Size : ℕ := 4

/-- Allocation size of `MeshCollection`'s constants buffer (mesh.rs line 238):
`size_of::<Mat4>() + size_of::<Vec3>()`. -/
def constantsBufferSize : ℕ := mat4Size + vec3Size

/-- Fields written to the constants buffer each frame by
`MeshCollection::bind` (mesh.rs lines 310-319), as (name, byte size) pairs. -/
def bindConstantsFields : List (String × ℕ) :=
  [("view_projection_matrix", mat4Size), ("camera_pos", vec3Size)]

/-- Layout asserted by the specification for the per-frame constants buffer:
viewProjection, six frustum planes, camera position, time. -/
def claimedConstantsFields : List (String × ℕ) :=
  [("viewProjection", mat4Size), ("frustumPlanes", 6 * vec4Size),
   ("cameraPos", vec3Size), ("time", f32Size)]

/-- Total byte size of a field list. -/
def fieldsSize (fs : List (String × ℕ)) : ℕ :=
  (fs.map Prod.snd).sum

/-! ## Meshlet builder bounds (mesh.rs lines 59-60; clustering algorithm
modelled from spec §4.2, its implementation being the external meshopt
crate) -/

/-- Meshlet vertex budget (mesh.rs line 59). -/
def MAX_VERTICES : ℕ := 64

/-- Meshlet triangle budget (mesh.rs line 60). -/
def MAX_TRIANGLES : ℕ := 124

/-- One cluster being grown by the greedy builder: its unique vertex list
(in first-use order) and its triangles (global index triples). -/
structure Cluster where
  verts : List ℕ
  tris : List (ℕ × ℕ × ℕ)
deriving DecidableEq, Repr

/-- Append a vertex to the unique-vertex list unless already present. -/
def insertUniqueVert (vs : List ℕ) (v : ℕ) : List ℕ :=
  if v ∈ vs then vs else vs ++ [v]

/-- Unique-vertex list after absorbing one triangle's three corners. -/
def insertTriVerts (vs : List ℕ) (t : ℕ × ℕ × ℕ) : List ℕ :=
  insertUniqueVert (insertUniqueVert (insertUniqueVert vs t.1) t.2.1) t.2.2

/-- Modelled from the spec: one step of §4.2's greedy clustering
(`meshopt::build_meshlets`, which lives in the external meshopt crate, not
under src): add the triangle to the current cluster if the vertex and
triangle budgets still hold, otherwise seal the current cluster and start a
new one with this triangle. -/
def clusterStep (st : List Cluster × Cluster) (t : ℕ × ℕ × ℕ) :
    List Cluster × Cluster :=
  if (insertTriVerts st.2.verts t).length ≤ MAX_VERTICES ∧
      st.2.tris.length + 1 ≤ MAX_TRIANGLES then
    (st.1, ⟨insertTriVerts st.2.verts t, st.2.tris ++ [t]⟩)
  else
    (st.1 ++ [st.2], ⟨insertTriVerts [] t, [t]⟩)

/-- Modelled from the spec: §4.2's greedy bounded clustering — fold all
triangles through `clusterStep` and flush the final cluster unless empty
(an empty cluster must never be produced). -/
def buildClusters (tris : List (ℕ × ℕ × ℕ)) : List Cluster :=
  if (tris.foldl clusterStep ([], ⟨[], []⟩)).2.tris.isEmpty then
    (tris.foldl clusterStep ([], ⟨[], []⟩)).1
  else
    (tris.foldl clusterStep ([], ⟨[], []⟩)).1 ++
      [(tris.foldl clusterStep ([], ⟨[], []⟩)).2]

/-- Local index bytes of a cluster, three per triangle: each global corner
index replaced by its position in the cluster's unique-vertex list (the
meshopt micro-index encoding). -/
def clusterLocalBytes (c : Cluster) : List ℕ :=
  (c.tris.map fun t =>
    [c.verts.indexOf t.1, c.verts.indexOf t.2.1, c.verts.indexOf t.2.2]).flatten

/-- Cluster viewed as the meshopt meshlet handed to `Mesh::new`'s packing
loop. -/
def toMeshoptMeshlet (c : Cluster) : MeshoptMeshlet :=
  ⟨c.verts, clusterLocalBytes c⟩

/-- Budget well-formedness of a produced cluster (spec §4.2 / §8): at most
64 unique vertices, between 1 and 124 triangles. -/
def ClusterOk (c : Cluster) : Prop :=
  c.verts.length ≤ MAX_VERTICES ∧ 1 ≤ c.tris.length ∧
    c.tris.length ≤ MAX_TRIANGLES

/-! ## Upload operation trace (buffer.rs `Buffer::new_device_local`, lines 42-99) -/

/-- Host-visible operations performed by `Buffer::new_device_local`. -/
inductive UploadOp where
  | createStagingBuffer
  | memcpyToStaging
  | createDeviceLocalBuffer
  | getBufferDeviceAddress
  | createCommandPool
  | allocateCommandBuffer
  | createFence
  | beginCommandBuffer
  | cmdCopyBuffer
  | endCommandBuffer
  | queueSubmit
  | waitForFences (timeout : ℕ)
  | destroyFence
  | freeCommandBuffers
  | destroyCommandPool
  | destroyStagingBuffer
  | returnBuffer
deriving DecidableEq, Repr

/-- The unbounded wait timeout `u64::MAX` passed at buffer.rs line 82. -/
def U64_MAX : ℕ := 2 ^ 64 - 1

/-- Straight-line operation sequence of `Buffer::new_device_local`
(buffer.rs lines 45-98), in source order. -/
def newDeviceLocalTrace : List UploadOp :=
  [.createStagingBuffer, .memcpyToStaging, .createDeviceLocalBuffer,
   .getBufferDeviceAddress, .createCommandPool, .allocateCommandBuffer,
   .createFence, .beginCommandBuffer, .cmdCopyBuffer, .endCommandBuffer,
   .queueSubmit, .waitForFences U64_MAX, .destroyFence, .freeCommandBuffers,
   .destroyCommandPool, .destroyStagingBuffer, .returnBuffer]

/-! ## Buffer ownership model (buffer.rs lines 8-17 and 102-109,
mesh.rs lines 196-227) -/

/-- Buffer resource: owns exactly one backing allocation, identified here
by a numeric id handed out by the allocator (buffer.rs lines 8-17). -/
structure Buffer where
  allocation : ℕ
deriving DecidableEq, Repr

/-- Per-level buffer triple (mesh.rs lines 196-202). -/
structure MeshLevelBuffers where
  vertex_buffer : Buffer
  meshlet_buffer : Buffer
  meshlet_data_buffer : Buffer
deriving DecidableEq, Repr

/-- Per-mesh buffers (mesh.rs lines 177-180). -/
structure MeshBuffers where
  levels : List MeshLevelBuffers
deriving DecidableEq, Repr

/-- Buffer-owning fields of `MeshCollection` (mesh.rs lines 220-227; the
address-table fields are named with a leading underscore in the source). -/
structure MeshCollection where
  mesh_buffers : List MeshBuffers
  constants_buffer : Buffer
  mesh_level_addresses : Buffer
  mesh_addresses : Buffer
deriving DecidableEq, Repr

/-- Free events emitted by `Buffer`'s `Drop` impl (buffer.rs lines 102-109):
one `destroy_buffer` of the owned allocation. -/
def Buffer.dropTrace (b : Buffer) : List ℕ := [b.allocation]

/-- Free events of dropping a `MeshLevelBuffers`: Rust drops fields in
declaration order. -/
def MeshLevelBuffers.dropTrace (l : MeshLevelBuffers) : List ℕ :=
  l.vertex_buffer.dropTrace ++ l.meshlet_buffer.dropTrace ++
    l.meshlet_data_buffer.dropTrace

/-- Free events of dropping a `MeshBuffers` (its `Vec` of levels in order). -/
def MeshBuffers.dropTrace (m : MeshBuffers) : List ℕ :=
  (m.levels.map MeshLevelBuffers.dropTrace).flatten

/-- Free events of dropping a `MeshCollection`, fields in declaration order
(mesh.rs lines 220-227). -/
def MeshCollection.dropTrace (c : MeshCollection) : List ℕ :=
  (c.mesh_buffers.map MeshBuffers.dropTrace).flatten ++
    c.constants_buffer.dropTrace ++ c.mesh_level_addresses.dropTrace ++
    c.mesh_addresses.dropTrace

/-- All `Buffer` resources owned (transitively) by a `MeshCollection`. -/
def MeshCollection.buffers (c : MeshCollection) : List Buffer :=
  (c.mesh_buffers.map fun m =>
      (m.levels.map fun l =>
        [l.vertex_buffer, l.meshlet_buffer, l.meshlet_data_buffer]).flatten).flatten ++
    [c.constants_buffer, c.mesh_level_addresses, c.mesh_addresses]

/-- The backing allocations owned by a `MeshCollection`. -/
def MeshCollection.ownedAllocs (c : MeshCollection) : List ℕ :=
  c.buffers.map Buffer.allocation

/-- Concrete collection shaped like the program's smallest case: one mesh,
two levels, every allocation id fresh from the allocator. -/
def mcExample : MeshCollection :=
  { mesh_buffers := [⟨[⟨⟨0⟩, ⟨1⟩, ⟨2⟩⟩, ⟨⟨3⟩, ⟨4⟩, ⟨5⟩⟩]⟩],
    constants_buffer := ⟨6⟩,
    mesh_level_addresses := ⟨7⟩,
    mesh_addresses := ⟨8⟩ }

/-! ## Frame ring (frame.rs lines 5 and 19-35, renderer.rs lines 28-30
and 119-128) -/

/-- Size of the frame ring (frame.rs line 5: `NUM_FRAMES = 2`). -/
def NUM_FRAMES : ℕ := 2

/-- Host-observable state of one slot's fence. -/
inductive FenceState where
  | signaled
  | unsignaled
deriving DecidableEq, Repr

/-- Fence states at startup: every slot's fence is created in the signaled
state (frame.rs line 25, `FenceCreateFlags::SIGNALED`). -/
def initialRing : List FenceState := List.replicate NUM_FRAMES .signaled

/-- Transitions of the frame ring. `submit` models renderer.rs lines 29-30
and 128: the host blocks on `wait_for_fences(.., u64::MAX)` until slot `i`'s
fence is signaled, resets it, records, and `queue_submit` leaves it
unsignaled until the GPU completes; `complete` models asynchronous GPU
completion signaling the fence. -/
inductive RingStep : List FenceState → List FenceState → Prop where
  | submit (s : List FenceState) (i : ℕ) (hi : i < s.length)
      (hs : s.get ⟨i, hi⟩ = .signaled) : RingStep s (s.set i .unsignaled)
  | complete (s : List FenceState) (i : ℕ) : RingStep s (s.set i .signaled)

/-- States reachable from startup by any interleaving of submissions and
GPU completions. -/
def ringReachable (s : List FenceState) : Prop :=
  Relation.ReflTransGen RingStep initialRing s

/-- Number of slots with outstanding (unsignaled-fence) GPU work. -/
def outstanding (s : List FenceState) : ℕ := s.count .unsignaled

/-! ## Theorems -/

/-- Claim C1 (counterexample): with 2 meshlets and workgroup size 2 the draw
dispatches 2 task groups, while `ceil(meshletCount / workgroupSize)` is 1. -/
theorem c1_dispatch_counterexample :
    numTaskGroups 2 2 = 2 ∧ (2 + 2 - 1) / 2 = 1 ∧ numTaskGroups 2 2 ≠ (2 + 2 - 1) / 2 := by
  decide

/-- Claim C1 (amended): for every mesh draw issued by
`MeshCollection::draw_mesh`, the clustered draw dispatches exactly
`meshletCount` task groups — the source expression
`(num_meshlets * workgroup_size + workgroup_size - 1) / workgroup_size`
simplifies to `num_meshlets` for any workgroup size ≥ 1. -/
theorem c1_dispatch_eq_meshlet_count (num_meshlets workgroup_size : ℕ)
    (h : 1 ≤ workgroup_size) :
    numTaskGroups num_meshlets workgroup_size = num_meshlets := by
  unfold numTaskGroups
  have h1 : num_meshlets * workgroup_size + workgroup_size - 1 =
      workgroup_size * num_meshlets + (workgroup_size - 1) := by
    cases workgroup_size with
    | zero => omega
    | succ k => ring_nf; omega
  rw [h1, Nat.mul_add_div (by omega)]
  have h2 : (workgroup_size - 1) / workgroup_size = 0 :=
    Nat.div_eq_of_lt (by omega)
  omega

/-- Claim C1 witness: concrete application at 3 meshlets, workgroup size 32. -/
theorem c1_dispatch_witness : 1 ≤ 32 ∧ numTaskGroups 3 32 = 3 :=
  ⟨by decide, c1_dispatch_eq_meshlet_count 3 32 (by decide)⟩

/-- Claim C3: for a grid instance at distance `dist` from the camera, with
`num_levels ≥ 1` mesh levels, the LOD level actually drawn (the
`render_meshes` selection against `max_level_idx = levels.len()` followed by
`draw_mesh`'s clamp to `levels.len() - 1`) equals
`min(floor(dist * 0.08), num_levels - 1)`. -/
theorem c3_lod_level_drawn (dist : ℚ) (num_levels : ℕ) (h : 1 ≤ num_levels) :
    drawnLevel dist num_levels =
      min (Int.toNat ⌊dist * (0.08 : ℚ)⌋) (num_levels - 1) := by
  unfold drawnLevel clampLevelIdx rustClamp selectLevelIdx
  omega

/-- Claim C3 witness: distance 50, 5 levels (maxLevel 4) draws level 4. -/
theorem c3_lod_level_witness : 1 ≤ 5 ∧ drawnLevel 50 5 = 4 := by
  refine ⟨by decide, ?_⟩
  rw [c3_lod_level_drawn 50 5 (by decide)]
  have h4 : (⌊(50 : ℚ) * 0.08⌋ : ℤ) = 4 := by norm_num
  rw [h4]
  rfl

/-- Claim C4 (counterexample): the constants buffer allocated at
mesh.rs line 238 is 76 bytes, which cannot hold the claimed layout
{viewProjection, frustumPlanes 6×vec4, cameraPos, time} of 176 bytes. -/
theorem c4_constants_counterexample :
    constantsBufferSize = 76 ∧ fieldsSize claimedConstantsFields = 176 ∧
      constantsBufferSize ≠ fieldsSize claimedConstantsFields := by
  decide

/-- Claim C4 (amended): the per-frame constants buffer written by
`MeshCollection::bind` has the layout {viewProjection: 4×4 floats,
cameraPos: vec3} and its allocation is sized to hold exactly these two
fields (64 + 12 = 76 bytes). -/
theorem c4_constants_layout :
    constantsBufferSize = fieldsSize bindConstantsFields ∧
      bindConstantsFields.map Prod.fst = ["view_projection_matrix", "camera_pos"] ∧
      constantsBufferSize = 76 := by
  decide

/-- Claim C10: for a mesh with at least one level, the level index used by
`MeshCollection::draw_mesh` is `level_idx` clamped to
`[0, num_levels - 1]`, hence always a valid index into the levels array. -/
theorem c10_level_index_safe (level_idx num_levels : ℕ) (h : 1 ≤ num_levels) :
    clampLevelIdx level_idx num_levels < num_levels ∧
      clampLevelIdx level_idx num_levels = min level_idx (num_levels - 1) := by
  unfold clampLevelIdx rustClamp
  omega

/-- Claim C10 witness: out-of-range request 9 against 5 levels uses level 4. -/
theorem c10_level_index_witness :
    1 ≤ 5 ∧ clampLevelIdx 9 5 < 5 ∧ clampLevelIdx 9 5 = min 9 4 :=
  ⟨by decide, c10_level_index_safe 9 5 (by decide)⟩

/-- Claim C9: `Buffer::new_device_local` copies the data to staging, records
and submits the copy, immediately waits on the completion fence with
timeout `u64::MAX`, and only afterwards destroys the staging buffer and
returns; the fence wait occurs exactly once, directly after submission. -/
theorem c9_upload_synchronous :
    newDeviceLocalTrace.indexOf .memcpyToStaging <
        newDeviceLocalTrace.indexOf .queueSubmit ∧
      newDeviceLocalTrace.indexOf (.waitForFences U64_MAX) =
        newDeviceLocalTrace.indexOf .queueSubmit + 1 ∧
      newDeviceLocalTrace.indexOf (.waitForFences U64_MAX) <
        newDeviceLocalTrace.indexOf .destroyStagingBuffer ∧
      newDeviceLocalTrace.indexOf .destroyStagingBuffer <
        newDeviceLocalTrace.indexOf .returnBuffer ∧
      newDeviceLocalTrace.getLast? = some .returnBuffer ∧
      newDeviceLocalTrace.count (.waitForFences U64_MAX) = 1 ∧
      U64_MAX = 2 ^ 64 - 1 := by
  decide

/-- Auxiliary: the level-list drop trace lists exactly the owned
allocations of each level triple, in order. -/
theorem dropTrace_levels_eq (ls : List MeshLevelBuffers) :
    (ls.map MeshLevelBuffers.dropTrace).flatten =
      ((ls.map fun l =>
        [l.vertex_buffer, l.meshlet_buffer, l.meshlet_data_buffer]).flatten).map
        Buffer.allocation := by
  induction ls with
  | nil => rfl
  | cons h t ih => simp [MeshLevelBuffers.dropTrace, Buffer.dropTrace, ih]

/-- Auxiliary: the mesh-list drop trace lists exactly the owned allocations
of every level of every mesh, in order. -/
theorem dropTrace_meshes_eq (ms : List MeshBuffers) :
    (ms.map MeshBuffers.dropTrace).flatten =
      ((ms.map fun m =>
        (m.levels.map fun l =>
          [l.vertex_buffer, l.meshlet_buffer, l.meshlet_data_buffer]).flatten).flatten).map
        Buffer.allocation := by
  induction ms with
  | nil => rfl
  | cons h t ih => simp [MeshBuffers.dropTrace, dropTrace_levels_eq, ih]

/-- Auxiliary: dropping a `MeshCollection` frees exactly its owned
allocations, in field-declaration order. -/
theorem meshCollection_dropTrace_eq (c : MeshCollection) :
    c.dropTrace = c.ownedAllocs := by
  unfold MeshCollection.dropTrace MeshCollection.ownedAllocs MeshCollection.buffers
  simp [dropTrace_meshes_eq, Buffer.dropTrace]

/-- Claim C5: every `Buffer` owns exactly one backing allocation and frees
exactly it on drop; when the owned allocation ids are pairwise distinct
(each came from a fresh allocator call), dropping the `MeshCollection`
frees every owned allocation exactly once and never frees anything else —
single ownership rules out double-free. -/
theorem c5_buffer_freed_exactly_once (c : MeshCollection)
    (h : c.ownedAllocs.Nodup) :
    (∀ b ∈ c.buffers, b.dropTrace = [b.allocation]) ∧
      (∀ a ∈ c.ownedAllocs, c.dropTrace.count a = 1) ∧
      (∀ a : ℕ, a ∉ c.ownedAllocs → c.dropTrace.count a = 0) := by
  refine ⟨fun b _ => rfl, fun a ha => ?_, fun a ha => ?_⟩
  · rw [meshCollection_dropTrace_eq]
    exact List.count_eq_one_of_mem h ha
  · rw [meshCollection_dropTrace_eq]
    exact List.count_eq_zero_of_not_mem ha

/-- Claim C5 witness: a one-mesh, two-level collection with fresh
allocation ids frees allocation 3 exactly once. -/
theorem c5_freed_once_witness :
    mcExample.ownedAllocs.Nodup ∧ mcExample.dropTrace.count 3 = 1 :=
  ⟨by decide, (c5_buffer_freed_exactly_once mcExample (by decide)).2.1 3 (by decide)⟩

/-- Auxiliary: every frame-ring transition preserves the number of slots. -/
theorem ringStep_length {s t : List FenceState} (h : RingStep s t) :
    t.length = s.length := by
  cases h <;> simp

/-- Claim C8: the frame ring has exactly 2 slots, all fences start
signaled, and in every state reachable by interleaving fence-gated
submissions with GPU completions at most 2 slots have outstanding
(unsignaled-fence) work. -/
theorem c8_frame_throttling :
    NUM_FRAMES = 2 ∧ (∀ f ∈ initialRing, f = FenceState.signaled) ∧
      initialRing.length = NUM_FRAMES ∧
      ∀ s, ringReachable s → outstanding s ≤ NUM_FRAMES := by
  refine ⟨rfl, ?_, rfl, ?_⟩
  · intro f hf
    exact List.eq_of_mem_replicate hf
  · intro s hs
    have hlen : s.length = NUM_FRAMES := by
      induction hs with
      | refl => rfl
      | tail _ h ih => rw [ringStep_length h]; exact ih
    calc outstanding s ≤ s.length := List.count_le_length _ _
      _ = NUM_FRAMES := hlen

/-- Claim C8 witness: the startup state is reachable and has at most 2
outstanding slots. -/
theorem c8_throttling_witness :
    ringReachable initialRing ∧ outstanding initialRing ≤ NUM_FRAMES :=
  ⟨Relation.ReflTransGen.refl,
    c8_frame_throttling.2.2.2 initialRing Relation.ReflTransGen.refl⟩

/-- Auxiliary: or-ing a shifted value with a small value is addition. -/
theorem or_shift_eq_add (x y n : ℕ) (h : y < 2 ^ n) :
    x <<< n ||| y = x * 2 ^ n + y := by
  rw [Nat.shiftLeft_eq, Nat.mul_comm]
  exact (Nat.mul_add_lt_is_or h x).symm

/-- Auxiliary: masking with 255 is reduction mod 256. -/
theorem and_255_eq_mod (x : ℕ) : x &&& 255 = x % 256 := by
  have h := Nat.and_pow_two_sub_one_eq_mod x 8
  norm_num at h
  exact h

/-- Auxiliary: a defaulted lookup in a list of bytes is a byte. -/
theorem getD_byte_lt (l : List ℕ) (h : ∀ b ∈ l, b < 256) (i : ℕ) :
    l.getD i 0 < 256 := by
  rw [List.getD_eq_getElem?_getD]
  cases hc : l[i]? with
  | none => simp
  | some a =>
    simp only [Option.getD_some]
    exact h a (List.getElem?_mem hc)

/-- Auxiliary: arithmetic form of a packed triangle word. -/
theorem packWord_eq (tris : List ℕ) (h : ∀ b ∈ tris, b < 256) (j : ℕ) :
    packWord tris j =
      ((tris.getD (4 * j) 0 * 256 + tris.getD (4 * j + 1) 0) * 256 +
          tris.getD (4 * j + 2) 0) * 256 + tris.getD (4 * j + 3) 0 := by
  have h4 : j <<< 2 = 4 * j := by
    rw [Nat.shiftLeft_eq]; ring
  have ha := getD_byte_lt tris h (4 * j)
  have hb := getD_byte_lt tris h (4 * j + 1)
  have hc := getD_byte_lt tris h (4 * j + 2)
  have hd := getD_byte_lt tris h (4 * j + 3)
  have p8 : (2 : ℕ) ^ 8 = 256 := by norm_num
  have p16 : (2 : ℕ) ^ 16 = 65536 := by norm_num
  have p24 : (2 : ℕ) ^ 24 = 16777216 := by norm_num
  unfold packWord
  rw [h4, Nat.or_assoc, Nat.or_assoc]
  rw [or_shift_eq_add _ _ 8 (by omega)]
  rw [or_shift_eq_add _ _ 16 (by rw [p16]; omega)]
  rw [or_shift_eq_add _ _ 24 (by rw [p24, p8]; omega)]
  rw [p8, p16, p24]
  ring

/-- Auxiliary: unpacking a word assembled from four bytes recovers them. -/
theorem unpack_bytes_arith (a b c d : ℕ) (ha : a < 256) (hb : b < 256)
    (hc : c < 256) (hd : d < 256) :
    unpackWord (((a * 256 + b) * 256 + c) * 256 + d) = [a, b, c, d] := by
  have p8 : (2 : ℕ) ^ 8 = 256 := by norm_num
  have p16 : (2 : ℕ) ^ 16 = 65536 := by norm_num
  have p24 : (2 : ℕ) ^ 24 = 16777216 := by norm_num
  have hs : ∀ x k : ℕ, x >>> k = x / 2 ^ k := fun x k => Nat.shiftRight_eq_div_pow x k
  unfold unpackWord
  simp only [hs, and_255_eq_mod, p8, p16, p24, List.cons.injEq, and_true]
  omega

/-- Auxiliary: unpacking a packed word recovers its four byte lanes. -/
theorem unpackWord_packWord (tris : List ℕ) (h : ∀ b ∈ tris, b < 256) (j : ℕ) :
    unpackWord (packWord tris j) =
      [tris.getD (4 * j) 0, tris.getD (4 * j + 1) 0,
       tris.getD (4 * j + 2) 0, tris.getD (4 * j + 3) 0] := by
  rw [packWord_eq tris h j]
  exact unpack_bytes_arith _ _ _ _ (getD_byte_lt tris h (4 * j))
    (getD_byte_lt tris h (4 * j + 1)) (getD_byte_lt tris h (4 * j + 2))
    (getD_byte_lt tris h (4 * j + 3))

/-- Auxiliary: flattening consecutive 4-element windows over `range n`
enumerates `range (4*n)`. -/
theorem flatten_range_windows (f : ℕ → ℕ) (n : ℕ) :
    ((List.range n).map
        (fun j => [f (4 * j), f (4 * j + 1), f (4 * j + 2), f (4 * j + 3)])).flatten =
      (List.range (4 * n)).map f := by
  induction n with
  | zero => rfl
  | succ k ih =>
    rw [List.range_succ, List.map_append, List.flatten_append, ih]
    have h4 : 4 * (k + 1) = 4 * k + 4 := by ring
    have hr4 : List.range 4 = [0, 1, 2, 3] := by decide
    rw [h4, List.range_add, List.map_append, List.map_map, hr4]
    simp

/-- Auxiliary: enumerating defaulted lookups of a list over `range n`
yields the list padded with the default. -/
theorem range_map_getD (l : List ℕ) : ∀ n : ℕ, l.length ≤ n →
    (List.range n).map (fun i => l.getD i 0) = l ++ List.replicate (n - l.length) 0 := by
  induction l with
  | nil =>
    intro n _
    simp [List.getD_eq_getElem?_getD, List.map_const']
  | cons a t ih =>
    intro n hn
    cases n with
    | zero => simp at hn
    | succ m =>
      rw [List.range_succ_eq_map, List.map_cons, List.map_map]
      have hfun : ((fun i => (a :: t).getD i 0) ∘ Nat.succ) = fun i => t.getD i 0 := rfl
      rw [hfun, ih m (by simpa using hn)]
      simp [Nat.succ_sub_succ]

/-- Auxiliary: the packed word count covers all triangle bytes. -/
theorem length_le_four_numPackedIndices (tris : List ℕ) :
    tris.length ≤ 4 * numPackedIndices tris := by
  have h : numPackedIndices tris = (tris.length + 3) / 4 := by
    unfold numPackedIndices
    rw [Nat.shiftRight_eq_div_pow]
  omega

/-- Auxiliary: unpacking all packed words of a meshlet and keeping the true
byte count recovers exactly the triangle byte list. -/
theorem unpack_section (tris : List ℕ) (h : ∀ b ∈ tris, b < 256) :
    (((packedWords tris).map unpackWord).flatten).take tris.length = tris := by
  unfold packedWords
  rw [List.map_map]
  have hcong : (List.range (numPackedIndices tris)).map (unpackWord ∘ packWord tris) =
      (List.range (numPackedIndices tris)).map
        (fun j => [tris.getD (4 * j) 0, tris.getD (4 * j + 1) 0,
                   tris.getD (4 * j + 2) 0, tris.getD (4 * j + 3) 0]) :=
    List.map_congr_left (fun j _ => unpackWord_packWord tris h j)
  rw [hcong, flatten_range_windows (fun i => tris.getD i 0) (numPackedIndices tris),
    range_map_getD tris (4 * numPackedIndices tris) (length_le_four_numPackedIndices tris)]
  exact List.take_left tris _

/-- Auxiliary: a sequential write run leaves the list length unchanged. -/
theorem writeSeq_length (ws : List ℕ) : ∀ (blob : List ℕ) (i : ℕ),
    (writeSeq blob i ws).length = blob.length := by
  induction ws with
  | nil => intro blob i; rfl
  | cons w t ih =>
    intro blob i
    simp only [writeSeq]
    rw [ih]
    simp

/-- Auxiliary: setting index `i` and taking `i+1` elements appends the
written element to the unchanged front. -/
theorem take_succ_set (blob : List ℕ) (i w : ℕ) (h : i < blob.length) :
    (blob.set i w).take (i + 1) = blob.take i ++ [w] := by
  rw [List.set_eq_take_cons_drop w h]
  rw [List.take_append_eq_append_take]
  have hlen : (blob.take i).length = i := List.length_take_of_le (by omega)
  rw [List.take_of_length_le (by omega), hlen]
  simp

/-- Auxiliary: a sequential write run concatenates over two write lists. -/
theorem writeSeq_append (xs ys : List ℕ) : ∀ (blob : List ℕ) (i : ℕ),
    writeSeq blob i (xs ++ ys) = writeSeq (writeSeq blob i xs) (i + xs.length) ys := by
  induction xs with
  | nil => intro blob i; simp [writeSeq]
  | cons x t ih =>
    intro blob i
    have h1 : writeSeq blob i ((x :: t) ++ ys) =
        writeSeq (blob.set i x) (i + 1) (t ++ ys) := rfl
    have h2 : writeSeq blob i (x :: t) = writeSeq (blob.set i x) (i + 1) t := rfl
    have h3 : i + 1 + t.length = i + (x :: t).length := by
      simp only [List.length_cons]
      omega
    rw [h1, h2, ih, h3]

/-- Auxiliary: an in-bounds sequential write run splices the written list
over the old contents. -/
theorem writeSeq_eq (ws : List ℕ) : ∀ (blob : List ℕ) (i : ℕ),
    i + ws.length ≤ blob.length →
    writeSeq blob i ws = blob.take i ++ ws ++ blob.drop (i + ws.length) := by
  induction ws with
  | nil =>
    intro blob i h
    simp [writeSeq]
  | cons w t ih =>
    intro blob i h
    simp only [List.length_cons] at h
    simp only [writeSeq]
    rw [ih (blob.set i w) (i + 1) (by rw [List.length_set]; omega)]
    rw [take_succ_set blob i w (by omega)]
    rw [List.drop_set, if_pos (by omega : i < i + 1 + t.length)]
    have harith : i + 1 + t.length = i + (t.length + 1) := by omega
    rw [harith]
    simp [List.append_assoc]

/-- Auxiliary: running the packing fold from a blob whose front `pre` is
already written lays the meshlet sections down contiguously after `pre`,
leaves the surplus zero-filled, and emits records whose offsets are the
running section lengths. -/
theorem buildLevel_fold (ms : List MeshoptMeshlet) : ∀ (pre : List ℕ) (L : ℕ)
    (recs : List Meshlet),
    pre.length + ((ms.map sectionOf).flatten).length ≤ L →
    ms.foldl buildStep (pre ++ List.replicate (L - pre.length) 0, pre.length, recs) =
      (pre ++ (ms.map sectionOf).flatten ++
         List.replicate (L - pre.length - ((ms.map sectionOf).flatten).length) 0,
       pre.length + ((ms.map sectionOf).flatten).length,
       recs ++ mkRecords pre.length ms) := by
  induction ms with
  | nil =>
    intro pre L recs h
    simp [mkRecords]
  | cons m rest ih =>
    intro pre L recs h
    simp only [List.map_cons, List.flatten_cons] at h ⊢
    have hsecLen : (sectionOf m).length =
        m.vertices.length + (packedWords m.triangles).length := by
      simp [sectionOf]
    have hVP : (m.vertices ++ packedWords m.triangles).length =
        m.vertices.length + (packedWords m.triangles).length := by
      simp
    have hsF : (sectionOf m ++ (rest.map sectionOf).flatten).length =
        (sectionOf m).length + ((rest.map sectionOf).flatten).length := by
      simp
    have hwrite : writeSeq
        (writeSeq (pre ++ List.replicate (L - pre.length) 0) pre.length m.vertices)
        (pre.length + m.vertices.length) (packedWords m.triangles) =
        (pre ++ sectionOf m) ++ List.replicate (L - (pre ++ sectionOf m).length) 0 := by
      rw [← writeSeq_append]
      have hb : pre.length + (m.vertices ++ packedWords m.triangles).length ≤
          (pre ++ List.replicate (L - pre.length) 0).length := by
        simp only [List.length_append, List.length_replicate]
        omega
      rw [writeSeq_eq (m.vertices ++ packedWords m.triangles) _ pre.length hb]
      rw [List.take_left, ← List.drop_drop, List.drop_left, List.drop_replicate]
      have harith : L - pre.length - (m.vertices ++ packedWords m.triangles).length =
          L - (pre ++ sectionOf m).length := by
        simp only [List.length_append]
        omega
      rw [harith]
      simp [sectionOf, List.append_assoc]
    have hstep : buildStep (pre ++ List.replicate (L - pre.length) 0, pre.length, recs) m =
        ((pre ++ sectionOf m) ++ List.replicate (L - (pre ++ sectionOf m).length) 0,
         (pre ++ sectionOf m).length,
         recs ++ [⟨pre.length, m.vertices.length, m.triangles.length / 3⟩]) := by
      show (writeSeq
          (writeSeq (pre ++ List.replicate (L - pre.length) 0) pre.length m.vertices)
          (pre.length + m.vertices.length) (packedWords m.triangles),
        pre.length + m.vertices.length + (packedWords m.triangles).length,
        recs ++ [(⟨pre.length, m.vertices.length, m.triangles.length / 3⟩ : Meshlet)]) = _
      rw [hwrite]
      have hidx : pre.length + m.vertices.length + (packedWords m.triangles).length =
          (pre ++ sectionOf m).length := by
        simp only [List.length_append]
        omega
      rw [hidx]
    calc (m :: rest).foldl buildStep
          (pre ++ List.replicate (L - pre.length) 0, pre.length, recs)
        = rest.foldl buildStep
            (buildStep (pre ++ List.replicate (L - pre.length) 0, pre.length, recs) m) := rfl
      _ = rest.foldl buildStep
            ((pre ++ sectionOf m) ++ List.replicate (L - (pre ++ sectionOf m).length) 0,
             (pre ++ sectionOf m).length,
             recs ++ [⟨pre.length, m.vertices.length, m.triangles.length / 3⟩]) := by
          rw [hstep]
      _ = ((pre ++ sectionOf m) ++ (rest.map sectionOf).flatten ++
             List.replicate
               (L - (pre ++ sectionOf m).length - ((rest.map sectionOf).flatten).length) 0,
           (pre ++ sectionOf m).length + ((rest.map sectionOf).flatten).length,
           (recs ++ [⟨pre.length, m.vertices.length, m.triangles.length / 3⟩]) ++
             mkRecords (pre ++ sectionOf m).length rest) := by
          refine ih (pre ++ sectionOf m) L _ ?_
          simp only [List.length_append]
          omega
      _ = (pre ++ (sectionOf m ++ (rest.map sectionOf).flatten) ++
             List.replicate
               (L - pre.length - (sectionOf m ++ (rest.map sectionOf).flatten).length) 0,
           pre.length + (sectionOf m ++ (rest.map sectionOf).flatten).length,
           recs ++ mkRecords pre.length (m :: rest)) := by
          refine congrArg₂ Prod.mk ?_ (congrArg₂ Prod.mk ?_ ?_)
          · have harith2 : L - (pre ++ sectionOf m).length -
                ((rest.map sectionOf).flatten).length =
                L - pre.length - (sectionOf m ++ (rest.map sectionOf).flatten).length := by
              simp only [List.length_append]
              omega
            rw [harith2]
            simp [List.append_assoc]
          · rw [hsF]
            simp only [List.length_append]
            omega
          · rw [mkRecords]
            simp [List.append_assoc, List.length_append]

/-- Auxiliary: the written sections never exceed the allocated blob size
(the allocation at mesh.rs line 137 uses `triangles.len() * 3` where
`triangles.len()` is already the byte count, so it over-allocates). -/
theorem flatten_sections_le (ms : List MeshoptMeshlet) :
    ((ms.map sectionOf).flatten).length ≤ numMeshletData ms := by
  induction ms with
  | nil => simp [numMeshletData]
  | cons m rest ih =>
    have hnum : numMeshletData (m :: rest) =
        (m.vertices.length + ((m.triangles.length * 3 + 3) >>> 2)) +
          numMeshletData rest := by
      simp [numMeshletData]
    have h1 : (sectionOf m).length =
        m.vertices.length + (packedWords m.triangles).length := by
      simp [sectionOf]
    have h2 : (packedWords m.triangles).length = (m.triangles.length + 3) >>> 2 := by
      simp [packedWords, numPackedIndices]
    have e1 : (m.triangles.length + 3) >>> 2 = (m.triangles.length + 3) / 4 := by
      rw [Nat.shiftRight_eq_div_pow]
    have e2 : (m.triangles.length * 3 + 3) >>> 2 = (m.triangles.length * 3 + 3) / 4 := by
      rw [Nat.shiftRight_eq_div_pow]
    simp only [List.map_cons, List.flatten_cons, List.length_append]
    omega

/-- Auxiliary: closed form of the packing loop — the blob is the
concatenation of all meshlet sections followed by the unwritten zero
padding, and the records are the running-offset records. -/
theorem buildLevel_spec (ms : List MeshoptMeshlet) :
    buildLevel ms =
      ((ms.map sectionOf).flatten ++
         List.replicate (numMeshletData ms - ((ms.map sectionOf).flatten).length) 0,
       ((ms.map sectionOf).flatten).length,
       mkRecords 0 ms) := by
  have h := buildLevel_fold ms [] (numMeshletData ms) []
    (by simpa using flatten_sections_le ms)
  simpa [buildLevel] using h

/-- Auxiliary: the blob keeps its allocated length. -/
theorem buildLevel_blob_length (ms : List MeshoptMeshlet) :
    (buildLevel ms).1.length = numMeshletData ms := by
  rw [buildLevel_spec]
  have h := flatten_sections_le ms
  simp only [List.length_append, List.length_replicate]
  omega

/-- Auxiliary: every record of the running-offset list stays within the
total section length after its base. -/
theorem mkRecords_mem_bound (ms : List MeshoptMeshlet) : ∀ (base : ℕ) (r : Meshlet),
    r ∈ mkRecords base ms →
    r.data_offset + r.vertex_count + (r.triangle_count * 3 + 3) / 4 ≤
      base + ((ms.map sectionOf).flatten).length := by
  induction ms with
  | nil =>
    intro base r hr
    simp [mkRecords] at hr
  | cons m rest ih =>
    intro base r hr
    simp only [mkRecords, List.mem_cons] at hr
    simp only [List.map_cons, List.flatten_cons, List.length_append]
    have h1 : (sectionOf m).length =
        m.vertices.length + (packedWords m.triangles).length := by
      simp [sectionOf]
    have h2 : (packedWords m.triangles).length = (m.triangles.length + 3) >>> 2 := by
      simp [packedWords, numPackedIndices]
    have e1 : (m.triangles.length + 3) >>> 2 = (m.triangles.length + 3) / 4 := by
      rw [Nat.shiftRight_eq_div_pow]
    rcases hr with hr | hr
    · subst hr
      show base + m.vertices.length + (m.triangles.length / 3 * 3 + 3) / 4 ≤ _
      omega
    · have hb := ih (base + (sectionOf m).length) r hr
      omega

/-- Auxiliary: every record of the running-offset list mirrors the counts
of some input meshlet. -/
theorem mkRecords_mem (ms : List MeshoptMeshlet) : ∀ (base : ℕ) (r : Meshlet),
    r ∈ mkRecords base ms →
    ∃ m ∈ ms, r.vertex_count = m.vertices.length ∧
      r.triangle_count = m.triangles.length / 3 := by
  induction ms with
  | nil =>
    intro base r hr
    simp [mkRecords] at hr
  | cons m rest ih =>
    intro base r hr
    simp only [mkRecords, List.mem_cons] at hr
    rcases hr with hr | hr
    · exact ⟨m, List.mem_cons_self m rest, by subst hr; exact ⟨rfl, rfl⟩⟩
    · obtain ⟨m', hm', hv, ht⟩ := ih _ r hr
      exact ⟨m', List.mem_cons_of_mem m hm', hv, ht⟩

/-- Auxiliary: when the blob holds the meshlet sections contiguously from
`base` on, unpacking each record's triangle section recovers that meshlet's
triangle bytes exactly. -/
theorem roundtrip_aux : ∀ (ms : List MeshoptMeshlet),
    (∀ m ∈ ms, (∀ b ∈ m.triangles, b < 256) ∧ 3 ∣ m.triangles.length) →
    ∀ (base : ℕ) (blob rest : List ℕ),
      blob.drop base = (ms.map sectionOf).flatten ++ rest →
      List.Forall₂ (fun (m : MeshoptMeshlet) (r : Meshlet) =>
          unpackTriangles blob r.data_offset r.vertex_count r.triangle_count =
            m.triangles) ms (mkRecords base ms) := by
  intro ms
  induction ms with
  | nil =>
    intro h base blob rest hdrop
    exact List.Forall₂.nil
  | cons m rest_ms ih =>
    intro h base blob rest hdrop
    have hm := h m (List.mem_cons_self m rest_ms)
    simp only [List.map_cons, List.flatten_cons] at hdrop
    rw [List.append_assoc] at hdrop
    rw [mkRecords]
    refine List.Forall₂.cons ?_ ?_
    · show unpackTriangles blob base m.vertices.length (m.triangles.length / 3) =
        m.triangles
      have hdropV : blob.drop (base + m.vertices.length) =
          packedWords m.triangles ++ ((rest_ms.map sectionOf).flatten ++ rest) := by
        have e := (List.drop_drop m.vertices.length base blob).symm
        rw [e, hdrop]
        simp only [sectionOf, List.append_assoc]
        exact List.drop_left _ _
      have h3m : 3 * (m.triangles.length / 3) = m.triangles.length :=
        Nat.mul_div_cancel' hm.2
      unfold unpackTriangles
      rw [h3m, hdropV]
      have hlenpw : (packedWords m.triangles).length = (m.triangles.length + 3) >>> 2 := by
        simp [packedWords, numPackedIndices]
      rw [List.take_left' hlenpw]
      exact unpack_section m.triangles hm.1
    · refine ih (fun m' hm' => h m' (List.mem_cons_of_mem m hm'))
        (base + (sectionOf m).length) blob rest ?_
      have e2 := (List.drop_drop (sectionOf m).length base blob).symm
      rw [e2, hdrop]
      exact List.drop_left _ _

/-- Auxiliary: inserting one vertex grows the unique list by at most one. -/
theorem insertUniqueVert_length (vs : List ℕ) (v : ℕ) :
    (insertUniqueVert vs v).length ≤ vs.length + 1 := by
  unfold insertUniqueVert
  split <;> simp

/-- Auxiliary: absorbing a triangle grows the unique list by at most three. -/
theorem insertTriVerts_length (vs : List ℕ) (t : ℕ × ℕ × ℕ) :
    (insertTriVerts vs t).length ≤ vs.length + 3 := by
  unfold insertTriVerts
  have h1 := insertUniqueVert_length vs t.1
  have h2 := insertUniqueVert_length (insertUniqueVert vs t.1) t.2.1
  have h3 := insertUniqueVert_length
    (insertUniqueVert (insertUniqueVert vs t.1) t.2.1) t.2.2
  omega

/-- Auxiliary: the greedy clustering fold keeps every sealed cluster within
budget and nonempty, and the current cluster within budget with no vertices
unless it has a triangle. -/
theorem clusterFold_ok (ts : List (ℕ × ℕ × ℕ)) : ∀ (acc : List Cluster)
    (cur : Cluster),
    (∀ c ∈ acc, ClusterOk c) →
    cur.verts.length ≤ MAX_VERTICES → cur.tris.length ≤ MAX_TRIANGLES →
    (cur.tris = [] → cur.verts = []) →
    (∀ c ∈ (ts.foldl clusterStep (acc, cur)).1, ClusterOk c) ∧
      ((ts.foldl clusterStep (acc, cur)).2.verts.length ≤ MAX_VERTICES ∧
       (ts.foldl clusterStep (acc, cur)).2.tris.length ≤ MAX_TRIANGLES ∧
       ((ts.foldl clusterStep (acc, cur)).2.tris = [] →
         (ts.foldl clusterStep (acc, cur)).2.verts = [])) := by
  induction ts with
  | nil =>
    intro acc cur h1 h2 h3 h4
    exact ⟨h1, h2, h3, h4⟩
  | cons t ts ih =>
    intro acc cur h1 h2 h3 h4
    simp only [List.foldl_cons]
    have hM : MAX_VERTICES = 64 := rfl
    have hT : MAX_TRIANGLES = 124 := rfl
    by_cases hcond : (insertTriVerts cur.verts t).length ≤ MAX_VERTICES ∧
        cur.tris.length + 1 ≤ MAX_TRIANGLES
    · have hstep : clusterStep (acc, cur) t =
          (acc, ⟨insertTriVerts cur.verts t, cur.tris ++ [t]⟩) := by
        unfold clusterStep
        rw [if_pos hcond]
      rw [hstep]
      refine ih acc ⟨insertTriVerts cur.verts t, cur.tris ++ [t]⟩ h1 hcond.1 ?_ ?_
      · simpa using hcond.2
      · intro habs
        exact absurd habs (by simp)
    · have hcur_ne : cur.tris ≠ [] := by
        intro hnil
        apply hcond
        have hv : cur.verts = [] := h4 hnil
        constructor
        · rw [hv]
          have hb := insertTriVerts_length [] t
          simp at hb
          omega
        · rw [hnil]
          simp [MAX_TRIANGLES]
      have hstep : clusterStep (acc, cur) t =
          (acc ++ [cur], ⟨insertTriVerts [] t, [t]⟩) := by
        unfold clusterStep
        rw [if_neg hcond]
      rw [hstep]
      refine ih (acc ++ [cur]) ⟨insertTriVerts [] t, [t]⟩ ?_ ?_ ?_ ?_
      · intro c hc
        rcases List.mem_append.1 hc with hc2 | hc2
        · exact h1 c hc2
        · have hceq : c = cur := by simpa using hc2
          subst hceq
          exact ⟨h2, List.length_pos.2 hcur_ne, h3⟩
      · show (insertTriVerts [] t).length ≤ MAX_VERTICES
        have hb := insertTriVerts_length [] t
        simp at hb
        omega
      · show ([t] : List (ℕ × ℕ × ℕ)).length ≤ MAX_TRIANGLES
        simp [MAX_TRIANGLES]
      · intro habs
        exact absurd habs (by simp)

/-- Auxiliary: every cluster produced by the spec-modelled greedy builder
is within budget and nonempty. -/
theorem buildClusters_ok (ts : List (ℕ × ℕ × ℕ)) :
    ∀ c ∈ buildClusters ts, ClusterOk c := by
  intro c hc
  have h := clusterFold_ok ts [] ⟨[], []⟩ (by intro c hc2; simp at hc2)
    (by show ([] : List ℕ).length ≤ MAX_VERTICES; decide)
    (by show ([] : List (ℕ × ℕ × ℕ)).length ≤ MAX_TRIANGLES; decide)
    (fun _ => rfl)
  unfold buildClusters at hc
  by_cases he : (ts.foldl clusterStep ([], ⟨[], []⟩)).2.tris.isEmpty
  · rw [if_pos he] at hc
    exact h.1 c hc
  · rw [if_neg he] at hc
    rcases List.mem_append.1 hc with hc2 | hc2
    · exact h.1 c hc2
    · have hceq : c = (ts.foldl clusterStep ([], ⟨[], []⟩)).2 := by simpa using hc2
      subst hceq
      have hne : (ts.foldl clusterStep ([], ⟨[], []⟩)).2.tris ≠ [] := by
        simpa [List.isEmpty_iff] using he
      exact ⟨h.2.1, List.length_pos.2 hne, h.2.2.1⟩

/-- Auxiliary: a cluster emits exactly three local index bytes per triangle. -/
theorem localBytes_aux (vs : List ℕ) (ts : List (ℕ × ℕ × ℕ)) :
    ((ts.map fun t =>
      [vs.indexOf t.1, vs.indexOf t.2.1, vs.indexOf t.2.2]).flatten).length =
      3 * ts.length := by
  induction ts with
  | nil => simp
  | cons t ts ih =>
    simp only [List.map_cons, List.flatten_cons, List.length_append, ih]
    simp
    omega

/-- Auxiliary: the local byte list of a cluster has three bytes per
triangle. -/
theorem clusterLocalBytes_length (c : Cluster) :
    (clusterLocalBytes c).length = 3 * c.tris.length :=
  localBytes_aux c.verts c.tris

/-- Claim C2 (counterexample): a meshlet with 5 triangles has 15 index
bytes, so its packed triangle section is 4 words, not 2; and the second
word's upper byte holds local index 4 (triangle 1's second corner), not
local index 12 — index 12 sits in the upper byte of the fourth word. -/
theorem c2_packing_counterexample :
    fiveTriMeshlet.triangles.length = 3 * 5 ∧
      numPackedIndices fiveTriMeshlet.triangles = 4 ∧
      numPackedIndices fiveTriMeshlet.triangles ≠ 2 ∧
      (unpackWord (packWord fiveTriMeshlet.triangles 1)).getD 0 0 ≠
        fiveTriMeshlet.triangles.getD 12 0 ∧
      (unpackWord (packWord fiveTriMeshlet.triangles 3)).getD 0 0 =
        fiveTriMeshlet.triangles.getD 12 0 := by
  decide

/-- Claim C2 (amended): for every meshlet list fed to the packing loop
(bytes < 256 as u8 values, index count a multiple of 3 as meshopt emits),
unpacking the 4-per-word encoding from the built blob at
`data_offset + vertex_count` reproduces each meshlet's local triangle index
list exactly; all lanes at or beyond the true index count in any word are
zero-filled; and for a meshlet with 5 triangles (15 bytes) the packed
section is 4 words, with the fourth word's upper byte holding local index
12 and its final lane zero. -/
theorem c2_packing_roundtrip (ms : List MeshoptMeshlet)
    (h : ∀ m ∈ ms, (∀ b ∈ m.triangles, b < 256) ∧ 3 ∣ m.triangles.length) :
    List.Forall₂ (fun (m : MeshoptMeshlet) (r : Meshlet) =>
        unpackTriangles (buildLevel ms).1 r.data_offset r.vertex_count
            r.triangle_count = m.triangles) ms (buildLevel ms).2.2 ∧
      (∀ (tris : List ℕ) (j k : ℕ), k < 4 → tris.length ≤ 4 * j + k →
        (∀ b ∈ tris, b < 256) → (unpackWord (packWord tris j)).getD k 0 = 0) ∧
      (∀ tris : List ℕ, tris.length = 15 → (∀ b ∈ tris, b < 256) →
        numPackedIndices tris = 4 ∧
          unpackWord (packWord tris 3) =
            [tris.getD 12 0, tris.getD 13 0, tris.getD 14 0, 0]) := by
  refine ⟨?_, ?_, ?_⟩
  · have h22 : (buildLevel ms).2.2 = mkRecords 0 ms := by rw [buildLevel_spec]
    rw [h22]
    refine roundtrip_aux ms h 0 (buildLevel ms).1
      (List.replicate (numMeshletData ms - ((ms.map sectionOf).flatten).length) 0) ?_
    rw [buildLevel_spec]
    simp
  · intro tris j k hk hlen hbytes
    rw [unpackWord_packWord tris hbytes j]
    interval_cases k
    · show tris.getD (4 * j) 0 = 0
      exact List.getD_eq_default _ _ (by omega)
    · show tris.getD (4 * j + 1) 0 = 0
      exact List.getD_eq_default _ _ (by omega)
    · show tris.getD (4 * j + 2) 0 = 0
      exact List.getD_eq_default _ _ (by omega)
    · show tris.getD (4 * j + 3) 0 = 0
      exact List.getD_eq_default _ _ (by omega)
  · intro tris h15 hbytes
    constructor
    · show (tris.length + 3) >>> 2 = 4
      rw [h15]
      decide
    · rw [unpackWord_packWord tris hbytes 3]
      have hz : tris.getD (4 * 3 + 3) 0 = 0 := List.getD_eq_default tris 0 (by omega)
      rw [hz]

/-- Claim C2 witness: concrete application to a level holding the quad
meshlet followed by the 5-triangle meshlet. -/
theorem c2_packing_witness :
    (∀ m ∈ [quadMeshlet, fiveTriMeshlet],
        (∀ b ∈ m.triangles, b < 256) ∧ 3 ∣ m.triangles.length) ∧
      List.Forall₂ (fun (m : MeshoptMeshlet) (r : Meshlet) =>
          unpackTriangles (buildLevel [quadMeshlet, fiveTriMeshlet]).1
              r.data_offset r.vertex_count r.triangle_count = m.triangles)
        [quadMeshlet, fiveTriMeshlet] (buildLevel [quadMeshlet, fiveTriMeshlet]).2.2 :=
  ⟨by decide, (c2_packing_roundtrip [quadMeshlet, fiveTriMeshlet] (by decide)).1⟩

/-- Claim C7: every meshlet record produced by the packing loop satisfies
`data_offset + vertex_count + ceil(triangle_count * 3 / 4) ≤` blob length. -/
theorem c7_meshlet_data_in_bounds (ms : List MeshoptMeshlet) :
    ∀ r ∈ (buildLevel ms).2.2,
      r.data_offset + r.vertex_count + (r.triangle_count * 3 + 3) / 4 ≤
        (buildLevel ms).1.length := by
  intro r hr
  have h22 : (buildLevel ms).2.2 = mkRecords 0 ms := by rw [buildLevel_spec]
  rw [h22] at hr
  have hb := mkRecords_mem_bound ms 0 r hr
  have hf := flatten_sections_le ms
  rw [buildLevel_blob_length]
  omega

/-- Claim C7 witness: the quad meshlet's record in a concrete two-meshlet
level stays within the blob. -/
theorem c7_bounds_witness :
    (⟨0, 4, 2⟩ : Meshlet) ∈ (buildLevel [quadMeshlet, fiveTriMeshlet]).2.2 ∧
      (⟨0, 4, 2⟩ : Meshlet).data_offset + (⟨0, 4, 2⟩ : Meshlet).vertex_count +
          ((⟨0, 4, 2⟩ : Meshlet).triangle_count * 3 + 3) / 4 ≤
        (buildLevel [quadMeshlet, fiveTriMeshlet]).1.length :=
  ⟨by decide,
    c7_meshlet_data_in_bounds [quadMeshlet, fiveTriMeshlet] ⟨0, 4, 2⟩ (by decide)⟩

/-- Claim C6: every meshlet record produced from the (spec-modelled) greedy
bounded clustering satisfies `vertex_count ≤ 64`, `1 ≤ triangle_count` and
`triangle_count ≤ 124`. -/
theorem c6_meshlet_bounds (ts : List (ℕ × ℕ × ℕ)) :
    ∀ r ∈ (buildLevel ((buildClusters ts).map toMeshoptMeshlet)).2.2,
      r.vertex_count ≤ MAX_VERTICES ∧ 1 ≤ r.triangle_count ∧
        r.triangle_count ≤ MAX_TRIANGLES := by
  intro r hr
  have h22 : (buildLevel ((buildClusters ts).map toMeshoptMeshlet)).2.2 =
      mkRecords 0 ((buildClusters ts).map toMeshoptMeshlet) := by
    rw [buildLevel_spec]
  rw [h22] at hr
  obtain ⟨m, hm, hv, ht⟩ := mkRecords_mem _ 0 r hr
  obtain ⟨c, hc, hcm⟩ := List.mem_map.1 hm
  have hok := buildClusters_ok ts c hc
  subst hcm
  rw [hv, ht]
  have hlen : (toMeshoptMeshlet c).triangles.length = 3 * c.tris.length :=
    clusterLocalBytes_length c
  rw [hlen]
  have hT : MAX_TRIANGLES = 124 := rfl
  obtain ⟨hok1, hok2, hok3⟩ := hok
  exact ⟨hok1, by omega, by omega⟩

/-- Claim C6 witness: two quad triangles form one cluster whose record is
within all budgets. -/
theorem c6_bounds_witness :
    (⟨0, 4, 2⟩ : Meshlet) ∈
        (buildLevel ((buildClusters
          [((0 : ℕ), (1 : ℕ), (3 : ℕ)), (3, 1, 2)]).map toMeshoptMeshlet)).2.2 ∧
      ((⟨0, 4, 2⟩ : Meshlet).vertex_count ≤ MAX_VERTICES ∧
        1 ≤ (⟨0, 4, 2⟩ : Meshlet).triangle_count ∧
        (⟨0, 4, 2⟩ : Meshlet).triangle_count ≤ MAX_TRIANGLES) :=
  ⟨by decide,
    c6_meshlet_bounds [((0 : ℕ), (1 : ℕ), (3 : ℕ)), (3, 1, 2)] ⟨0, 4, 2⟩ (by decide)⟩
